import Mathlib

/-!
Verification of the Raito fixture generator (scripts/data/generate_data.py).

The Python script is shallowly embedded below.  External JSON-RPC
collaborators (the Bitcoin node, the timestamp/UTXO/utreexo data providers)
are modelled as a record of total functions (an environment), matching the
spec, which treats every lookup as a blocking request/response call.
Python dictionaries carrying node data are modelled as structures; hex
strings that the script parses into integers (chainwork, bits) are modelled
as their numeric values; decimal coin amounts are modelled as exact
rationals, matching the exact decimal arithmetic used by the script.
Fallible steps (KeyError, IndexError, assert, NotImplementedError) are
modelled with Except String.
-/

/-- Block header fields as reported by the getblockheader and getblock RPC
calls.  The bits and chainwork hex strings are modelled by their numeric
values. -/
structure HeaderFields where
  height : Nat
  time : Nat
  bits : Nat
  nonce : Nat
  version : Int
  hash : String
  chainwork : Nat
  previousblockhash : String
  nextblockhash : String
  mediantime : Nat
  merkleroot : String
deriving DecidableEq, Repr, Inhabited

/-- Chain state: a block header extended with prev_timestamps and
epoch_start_time, as built by fetch_chain_state. -/
structure ChainState where
  hdr : HeaderFields
  prev_timestamps : List Nat
  epoch_start_time : Nat
deriving DecidableEq, Repr, Inhabited

/-- Python list slicing l[-n:] for n greater than 0: the last n elements of
the list (the whole list when it is shorter than n). -/
def lastN (n : Nat) (l : List α) : List α :=
  l.drop (l.length - n)

/-- Embeds bits_to_target.  The source takes the bits as an 8-character hex
string and splits it into the first byte (exponent) and remaining three
bytes (mantissa); on the numeric value of the 4-byte word this is division
and remainder by 2 to the 24. -/
def bits_to_target (bits : Nat) : Nat :=
  let exponent := bits / 2 ^ 24
  let mantissa := bits % 2 ^ 24
  if exponent = 0 then mantissa
  else if exponent ≤ 3 then mantissa >>> (8 * (3 - exponent))
  else mantissa <<< (8 * (exponent - 3))

/-- Embeds next_chain_state: the next state is a copy of the new block (its
header fields), with prev_timestamps extended by the block time and clipped
to the last 11 entries, and epoch_start_time updated at epoch boundaries. -/
def next_chain_state (current_state : ChainState) (new_block : HeaderFields) :
    ChainState :=
  let prev_timestamps := current_state.prev_timestamps ++ [new_block.time]
  { hdr := new_block
    prev_timestamps := lastN 11 prev_timestamps
    epoch_start_time :=
      if new_block.height % 2016 = 0 then new_block.time
      else current_state.epoch_start_time }

theorem lastN_length (n : Nat) (l : List α) :
    (lastN n l).length = min n l.length := by
  simp [lastN]
  omega

theorem lastN_of_length_le {n : Nat} {l : List α} (h : l.length ≤ n) :
    lastN n l = l := by
  simp [lastN, Nat.sub_eq_zero_of_le h]

theorem lastN_append_singleton {n : Nat} (hn : 1 ≤ n) (l : List α) (t : α) :
    lastN n (l ++ [t]) = lastN (n - 1) l ++ [t] := by
  unfold lastN
  have hle : l.length + 1 - n ≤ l.length := by omega
  rw [List.length_append, List.length_singleton,
    List.drop_append_of_le_length hle,
    show l.length + 1 - n = l.length - (n - 1) by omega]

/-- C2: the chain-state transition appends the block time to the previous
timestamps and keeps only the last 11 entries; once the window holds 11
entries, the newest entry of the result is the block time and the remaining
10 entries are the last 10 previous timestamps. -/
theorem next_chain_state_prev_timestamps (s : ChainState) (b : HeaderFields) :
    (next_chain_state s b).prev_timestamps =
      lastN 11 (s.prev_timestamps ++ [b.time])
    ∧ (s.prev_timestamps.length = 11 →
        (next_chain_state s b).prev_timestamps.getLast? = some b.time
        ∧ (next_chain_state s b).prev_timestamps.dropLast =
            lastN 10 s.prev_timestamps) := by
  refine ⟨rfl, fun hsat => ?_⟩
  have h1 : (next_chain_state s b).prev_timestamps =
      lastN 10 s.prev_timestamps ++ [b.time] := by
    show lastN 11 (s.prev_timestamps ++ [b.time]) = _
    rw [lastN_append_singleton (by omega)]
  rw [h1]
  exact ⟨by simp, by simp⟩

/-- Witness for C2 at a saturated 11-entry window. -/
theorem next_chain_state_prev_timestamps_witness :
    ([1, 2, 3, 4, 5, 6, 7, 8, 9, 10, 11] : List Nat).length = 11
    ∧ ((next_chain_state
          { hdr := default, prev_timestamps := [1, 2, 3, 4, 5, 6, 7, 8, 9, 10, 11],
            epoch_start_time := 0 }
          { (default : HeaderFields) with time := 12 }).prev_timestamps.getLast?
        = some 12
      ∧ (next_chain_state
          { hdr := default, prev_timestamps := [1, 2, 3, 4, 5, 6, 7, 8, 9, 10, 11],
            epoch_start_time := 0 }
          { (default : HeaderFields) with time := 12 }).prev_timestamps.dropLast
        = lastN 10 [1, 2, 3, 4, 5, 6, 7, 8, 9, 10, 11]) :=
  ⟨by decide,
    (next_chain_state_prev_timestamps
      { hdr := default, prev_timestamps := [1, 2, 3, 4, 5, 6, 7, 8, 9, 10, 11],
        epoch_start_time := 0 }
      { (default : HeaderFields) with time := 12 }).2 (by decide)⟩

/-- C3: the compact-target decoder returns the mantissa unshifted for
exponent 0, the mantissa divided by 256 to the (3 - exponent) for exponents
up to 3, and the mantissa multiplied by 256 to the (exponent - 3) otherwise;
in particular 0x1d00ffff decodes to 0xffff times 2 to the (8 * 26) and
0x03123456 decodes to 0x123456. -/
theorem bits_to_target_spec :
    (∀ e m : Nat, e < 2 ^ 8 → m < 2 ^ 24 →
      bits_to_target (e * 2 ^ 24 + m) =
        if e = 0 then m
        else if e ≤ 3 then m / 2 ^ (8 * (3 - e))
        else m * 2 ^ (8 * (e - 3)))
    ∧ bits_to_target 0x1d00ffff = 0xffff * 2 ^ (8 * (0x1d - 3))
    ∧ bits_to_target 0x03123456 = 0x123456 := by
  refine ⟨fun e m _ hm => ?_, by decide, by decide⟩
  have h24 : (2 : ℕ) ^ 24 = 16777216 := by norm_num
  rw [h24] at hm
  have hdiv : (e * 2 ^ 24 + m) / 2 ^ 24 = e := by rw [h24]; omega
  have hmod : (e * 2 ^ 24 + m) % 2 ^ 24 = m := by rw [h24]; omega
  simp only [bits_to_target, hdiv, hmod, Nat.shiftRight_eq_div_pow,
    Nat.shiftLeft_eq]

/-- Witness for C3 applying the general decode rule at a concrete bits
value with exponent 5 and mantissa 7. -/
theorem bits_to_target_spec_witness :
    (5 < 2 ^ 8 ∧ 7 < 2 ^ 24)
    ∧ bits_to_target (5 * 2 ^ 24 + 7) =
        if (5 : Nat) = 0 then 7
        else if (5 : Nat) ≤ 3 then 7 / 2 ^ (8 * (3 - 5))
        else 7 * 2 ^ (8 * (5 - 3)) :=
  ⟨⟨by decide, by decide⟩, bits_to_target_spec.1 5 7 (by decide) (by decide)⟩

/-- C4: the chain-state transition sets epoch_start_time to the block time
exactly when the new block height is divisible by 2016 and carries it over
from the previous state otherwise. -/
theorem next_chain_state_epoch (s : ChainState) (b : HeaderFields) :
    (b.height % 2016 = 0 → (next_chain_state s b).epoch_start_time = b.time)
    ∧ (b.height % 2016 ≠ 0 →
        (next_chain_state s b).epoch_start_time = s.epoch_start_time) := by
  constructor <;> intro h <;> simp [next_chain_state, h]

/-- Witness for C4 exercising both branches at heights 2016 and 2017. -/
theorem next_chain_state_epoch_witness :
    (2016 % 2016 = 0
      ∧ (next_chain_state
          { hdr := default, prev_timestamps := [], epoch_start_time := 5 }
          { (default : HeaderFields) with height := 2016, time := 99 }).epoch_start_time
        = 99)
    ∧ (2017 % 2016 ≠ 0
      ∧ (next_chain_state
          { hdr := default, prev_timestamps := [], epoch_start_time := 5 }
          { (default : HeaderFields) with height := 2017, time := 99 }).epoch_start_time
        = 5) :=
  ⟨⟨by decide,
    (next_chain_state_epoch
      { hdr := default, prev_timestamps := [], epoch_start_time := 5 }
      { (default : HeaderFields) with height := 2016, time := 99 }).1 (by decide)⟩,
   ⟨by decide,
    (next_chain_state_epoch
      { hdr := default, prev_timestamps := [], epoch_start_time := 5 }
      { (default : HeaderFields) with height := 2017, time := 99 }).2 (by decide)⟩⟩

/-- Raw transaction output as reported by the node (verbose form).  The
JSON decimal coin amount is modelled as an exact rational; the script keeps
all eight fractional digits exactly via decimal arithmetic. -/
structure RawOut where
  value : ℚ
  scriptPubKey_hex : String
deriving DecidableEq, Repr, Inhabited

/-- Raw transaction input as reported by the node.  A coinbase input
carries a coinbase field and no txid or vout; the txinwitness field
defaults to the empty list when absent. -/
structure RawInput where
  coinbase : Option String
  txid : Option String
  vout : Option Nat
  scriptSig_hex : String
  sequence : Nat
  txinwitness : List String
deriving DecidableEq, Repr, Inhabited

/-- Raw transaction as reported by getrawtransaction or getblock with
verbosity 2. -/
structure RawTx where
  txid : String
  version : Int
  hex : String
  locktime : Nat
  blockhash : String
  vin : List RawInput
  vout : List RawOut
deriving DecidableEq, Repr, Inhabited

/-- Raw block: header fields plus the transaction list. -/
structure RawBlock where
  hdr : HeaderFields
  tx : List RawTx
deriving DecidableEq, Repr, Inhabited

/-- One entry of the pre-fetched UTXO snapshot used on the fast path.
Numeric fields arrive already converted to integers. -/
structure UtxoEntry where
  txid : String
  vout : Nat
  value : Int
  pk_script : String
  block_height : Nat
  median_timestamp : Nat
  is_coinbase : Bool
deriving DecidableEq, Repr, Inhabited

/-- Payload of the timestamp-backfill provider used by
fetch_chain_state_fast. -/
structure TimestampData where
  previous_timestamps : List Nat
  epoch_start_time : Nat
deriving DecidableEq, Repr, Inhabited

/-- External collaborators (node RPC and auxiliary data providers),
modelled as total functions per the request/response model of the spec. -/
structure Env where
  getblockhash : Nat → String
  getblockheader : String → HeaderFields
  getblock : String → RawBlock
  getrawtransaction : String → RawTx
  get_utxo_set : Nat → List UtxoEntry
  get_timestamp_data : Nat → TimestampData
  get_utreexo_data : Nat → String
deriving Inhabited

/-- Formatted transaction output (Cairo type). -/
structure FmtOutput where
  value : Int
  pk_script : String
  cached : Bool
deriving DecidableEq, Repr, Inhabited

/-- Formatted outpoint (Cairo type). -/
structure FmtOutPoint where
  txid : String
  vout : Nat
  data : FmtOutput
  block_height : Nat
  median_time_past : Nat
  is_coinbase : Bool
deriving DecidableEq, Repr, Inhabited

/-- Formatted transaction input (Cairo type). -/
structure FmtInput where
  script : String
  sequence : Nat
  previous_output : FmtOutPoint
  witness : List String
deriving DecidableEq, Repr, Inhabited

/-- Formatted transaction (Cairo type). -/
structure FmtTx where
  version : Int
  is_segwit : Bool
  inputs : List FmtInput
  outputs : List FmtOutput
  lock_time : Nat
deriving DecidableEq, Repr, Inhabited

/-- Rounding to the nearest integer with ties to even: the rounding applied
by Decimal.to_integral_value under the default ROUND_HALF_EVEN context. -/
def roundHalfToEven (q : ℚ) : ℤ :=
  if q - ⌊q⌋ < 1 / 2 then ⌊q⌋
  else if 1 / 2 < q - ⌊q⌋ then ⌊q⌋ + 1
  else if ⌊q⌋ % 2 = 0 then ⌊q⌋ else ⌊q⌋ + 1

/-- Embeds format_output: the decimal coin amount is multiplied by ten to
the eight exactly and rounded to an integral value.  For the amounts the
node reports (at most sixteen significant digits) the Decimal product at
context precision 16 is exact, so the exact rational product models it. -/
def format_output (output : RawOut) : FmtOutput :=
  { value := roundHalfToEven (output.value * 100000000)
    pk_script := "0x" ++ output.scriptPubKey_hex
    cached := false }

/-- Embeds format_coinbase_input.  The caller only reaches this with a
present coinbase field, so the default of getD is never used. -/
def format_coinbase_input (input : RawInput) : FmtInput :=
  { script := "0x" ++ input.coinbase.getD ""
    sequence := input.sequence
    previous_output :=
      { txid := String.mk (List.replicate 64 '0')
        vout := 4294967295
        data := { value := 0, pk_script := "0x", cached := false }
        block_height := 0
        median_time_past := 0
        is_coinbase := false }
    witness :=
      ["0x0000000000000000000000000000000000000000000000000000000000000000"] }

/-- Embeds format_outpoint (the fast path formatter over a snapshot
entry). -/
def format_outpoint (previous_output : UtxoEntry) : FmtOutPoint :=
  { txid := previous_output.txid
    vout := previous_output.vout
    data :=
      { value := previous_output.value
        pk_script := "0x" ++ previous_output.pk_script
        cached := false }
    block_height := previous_output.block_height
    median_time_past := previous_output.median_timestamp
    is_coinbase := previous_output.is_coinbase }

/-- Embeds resolve_outpoint (the exact path): fetch the spent transaction,
its containing block header, and the previous block header whose reported
median time becomes the median_time_past of the outpoint.  An out-of-range
output index or an empty input list raises IndexError. -/
def resolve_outpoint (env : Env) (txid : String) (vout : Nat) :
    Except String FmtOutPoint :=
  let tx := env.getrawtransaction txid
  let block := env.getblockheader tx.blockhash
  let prev_block := env.getblockheader block.previousblockhash
  match tx.vout[vout]?, tx.vin.head? with
  | some out, some vin0 =>
      Except.ok
        { txid := txid
          vout := vout
          data := format_output out
          block_height := block.height
          median_time_past := prev_block.mediantime
          is_coinbase := vin0.coinbase.isSome }
  | _, _ => Except.error "IndexError"

/-- Python truthiness of the optional coinbase string: present and
nonempty. -/
def truthyStr : Option String → Bool
  | none => false
  | some s => !(s == "")

/-- Embeds resolve_input.  The branch between the fast lookup and the exact
chained lookup is the Python truthiness test on the previous_outputs
mapping: absent or empty falls through to the exact path; a present
nonempty mapping is consulted and a missing key raises KeyError. -/
def alookup [DecidableEq κ] (k : κ) : List (κ × β) → Option β
  | [] => none
  | e :: rest => if e.1 = k then some e.2 else alookup k rest

def resolve_input (env : Env)
    (previous_outputs : Option (List ((String × Nat) × UtxoEntry)))
    (input : RawInput) : Except String FmtInput :=
  if truthyStr input.coinbase then
    Except.ok (format_coinbase_input input)
  else
    match input.txid, input.vout with
    | some txid, some vout => do
        let previous_output ←
          match previous_outputs with
          | some (e :: rest) =>
              (match alookup (txid, vout) (e :: rest) with
               | some p => Except.ok (format_outpoint p)
               | none => Except.error "KeyError")
          | _ => resolve_outpoint env txid vout
        Except.ok
          { script := "0x" ++ input.scriptSig_hex
            sequence := input.sequence
            previous_output := previous_output
            witness := input.txinwitness.map (fun item => "0x" ++ item) }
    | _, _ => Except.error "KeyError"

/-- Python string slicing s[a:b] for a at most b. -/
def pySlice (s : String) (a b : Nat) : String :=
  String.mk ((s.toList.drop a).take (b - a))

/-- Embeds resolve_transaction. -/
def resolve_transaction (env : Env)
    (previous_outputs : Option (List ((String × Nat) × UtxoEntry)))
    (transaction : RawTx) : Except String FmtTx := do
  let inputs ← transaction.vin.mapM (resolve_input env previous_outputs)
  Except.ok
    { version := transaction.version
      is_segwit := pySlice transaction.hex 8 12 == "0001"
      inputs := inputs
      outputs := transaction.vout.map format_output
      lock_time := transaction.locktime }

/-- Per-block resolved transactions, keyed by txid in node order. -/
structure ResolvedBlock where
  hdr : HeaderFields
  data : List (String × FmtTx)
deriving DecidableEq, Repr, Inhabited

/-- Embeds fetch_block: downloads the block, builds the fast-path snapshot
mapping only when fast is requested, and resolves every transaction. -/
def fetch_block (env : Env) (block_hash : String) (fast : Bool) :
    Except String ResolvedBlock := do
  let block := env.getblock block_hash
  let previous_outputs :=
    if fast then
      some ((env.get_utxo_set block.hdr.height).map
        (fun o => ((o.txid, o.vout), o)))
    else none
  let data ← block.tx.mapM (fun tx => do
    let r ← resolve_transaction env previous_outputs tx
    Except.ok (tx.txid, r))
  Except.ok { hdr := block.hdr, data := data }

theorem roundHalfToEven_intCast (z : ℤ) : roundHalfToEven (z : ℚ) = z := by
  simp [roundHalfToEven, Int.floor_intCast]

theorem roundHalfToEven_close (q : ℚ) :
    |q - (roundHalfToEven q : ℚ)| ≤ 1 / 2 := by
  have h0 : (⌊q⌋ : ℚ) ≤ q := Int.floor_le q
  have h1 : q < ⌊q⌋ + 1 := Int.lt_floor_add_one q
  unfold roundHalfToEven
  split_ifs with ha hb hc <;> rw [abs_le] <;> push_cast <;>
    constructor <;> linarith

/-- C6: the output formatter computes the satoshi value exactly for any
amount with eight decimal digits, its result is always within one half of
the exact product with ten to the eight (rounding to the nearest integral
value), and in particular 0.00000001 formats to 1 and 21000000.00000000
formats to 2100000000000000. -/
theorem format_output_satoshi :
    (∀ (n : ℕ) (s : String),
      (format_output { value := (n : ℚ) / 100000000, scriptPubKey_hex := s }).value
        = (n : ℤ))
    ∧ (∀ (q : ℚ) (s : String),
        |q * 100000000 -
          (((format_output { value := q, scriptPubKey_hex := s }).value : ℤ) : ℚ)|
          ≤ 1 / 2)
    ∧ (format_output { value := 1 / 100000000, scriptPubKey_hex := "" }).value = 1
    ∧ (format_output { value := 21000000, scriptPubKey_hex := "" }).value
        = 2100000000000000 := by
  have hmul : ∀ n : ℕ, ((n : ℚ) / 100000000) * 100000000 = ((n : ℤ) : ℚ) := by
    intro n
    push_cast
    field_simp
  refine ⟨fun n s => ?_, fun q s => ?_, ?_, ?_⟩
  · show roundHalfToEven (((n : ℚ) / 100000000) * 100000000) = (n : ℤ)
    rw [hmul, roundHalfToEven_intCast]
  · exact roundHalfToEven_close (q * 100000000)
  · show roundHalfToEven (((1 : ℚ) / 100000000) * 100000000) = 1
    norm_num [roundHalfToEven]
  · show roundHalfToEven ((21000000 : ℚ) * 100000000) = 2100000000000000
    norm_num [roundHalfToEven]

/-- C7: a coinbase input (present, nonempty coinbase script) bypasses
resolution on every path: whatever the environment and whatever snapshot
mapping is supplied, the resolver returns the canonical null outpoint with
an all-zero txid, vout 0xFFFFFFFF, a zero-value cached-false output with
empty script, block height 0, median time past 0, and is_coinbase false. -/
theorem resolve_input_coinbase (env env2 : Env)
    (po po2 : Option (List ((String × Nat) × UtxoEntry)))
    (input : RawInput) (s : String)
    (hcb : input.coinbase = some s) (hs : s ≠ "") :
    Except.map (fun i => i.previous_output) (resolve_input env po input)
      = Except.ok
          { txid := String.mk (List.replicate 64 '0')
            vout := 4294967295
            data := { value := 0, pk_script := "0x", cached := false }
            block_height := 0
            median_time_past := 0
            is_coinbase := false }
    ∧ resolve_input env po input = resolve_input env2 po2 input := by
  have ht : truthyStr input.coinbase = true := by
    rw [hcb]
    simpa [truthyStr] using hs
  constructor
  · simp [resolve_input, ht, format_coinbase_input, Except.map]
  · simp [resolve_input, ht]

/-- Witness for C7 on a concrete coinbase input with arbitrary snapshot
choices. -/
theorem resolve_input_coinbase_witness :
    ({ coinbase := some "04ffff001d", txid := none, vout := none,
       scriptSig_hex := "", sequence := 4294967295,
       txinwitness := [] } : RawInput).coinbase = some "04ffff001d"
    ∧ "04ffff001d" ≠ ""
    ∧ (Except.map (fun i => i.previous_output)
        (resolve_input default none
          { coinbase := some "04ffff001d", txid := none, vout := none,
            scriptSig_hex := "", sequence := 4294967295, txinwitness := [] })
        = Except.ok
            { txid := String.mk (List.replicate 64 '0')
              vout := 4294967295
              data := { value := 0, pk_script := "0x", cached := false }
              block_height := 0
              median_time_past := 0
              is_coinbase := false }
      ∧ resolve_input default none
          { coinbase := some "04ffff001d", txid := none, vout := none,
            scriptSig_hex := "", sequence := 4294967295, txinwitness := [] }
        = resolve_input default (some [])
          { coinbase := some "04ffff001d", txid := none, vout := none,
            scriptSig_hex := "", sequence := 4294967295, txinwitness := [] }) :=
  ⟨rfl, by decide,
    resolve_input_coinbase default default none (some [])
      { coinbase := some "04ffff001d", txid := none, vout := none,
        scriptSig_hex := "", sequence := 4294967295, txinwitness := [] }
      "04ffff001d" rfl (by decide)⟩

/-- C8: on the exact path, under a well-formed chain (headers resolvable by
hash, heights consistent, previous hashes linking height k to k - 1), the
resolved outpoint carries the containing block height, the spent output at
the referenced index, the median time reported by the block preceding the
containing block, and is_coinbase true exactly when the spent transaction's
first input has no previous output. -/
theorem resolve_outpoint_exact (env : Env) (hashAt : Nat → String)
    (chainHdr : Nat → HeaderFields)
    (hlook : ∀ k, env.getblockheader (hashAt k) = chainHdr k)
    (hheight : ∀ k, (chainHdr k).height = k)
    (hprev : ∀ k, 1 ≤ k → (chainHdr k).previousblockhash = hashAt (k - 1))
    (t : String) (v : Nat) (h : Nat) (h1 : 1 ≤ h)
    (hblock : (env.getrawtransaction t).blockhash = hashAt h)
    (out : RawOut) (hout : (env.getrawtransaction t).vout[v]? = some out)
    (i0 : RawInput) (hvin : (env.getrawtransaction t).vin.head? = some i0)
    (hwf : i0.coinbase.isSome = i0.txid.isNone) :
    resolve_outpoint env t v = Except.ok
      { txid := t
        vout := v
        data := format_output out
        block_height := h
        median_time_past := (chainHdr (h - 1)).mediantime
        is_coinbase := i0.txid.isNone } := by
  simp only [resolve_outpoint]
  rw [hblock, hlook, hprev h h1, hlook, hout, hvin, hheight]
  simp [hwf]

/-- Hash of the witness chain at a given height. -/
def hashAtW (k : Nat) : String :=
  String.mk (List.replicate k 'h')

/-- Header of the witness chain at a given height. -/
def chainHdrW (k : Nat) : HeaderFields :=
  { height := k
    time := 1000 + k
    bits := 0x1d00ffff
    nonce := 0
    version := 1
    hash := hashAtW k
    chainwork := k
    previousblockhash := hashAtW (k - 1)
    nextblockhash := hashAtW (k + 1)
    mediantime := 100 + k
    merkleroot := "" }

/-- Coinbase-only transaction of the witness chain. -/
def txW : RawTx :=
  { txid := "aa"
    version := 1
    hex := "0100000000010100"
    locktime := 0
    blockhash := hashAtW 2
    vin := [{ coinbase := some "ab", txid := none, vout := none,
              scriptSig_hex := "", sequence := 0, txinwitness := [] }]
    vout := [{ value := 50, scriptPubKey_hex := "51" }] }

/-- Block of the witness chain at height 1. -/
def blockW : RawBlock :=
  { hdr := chainHdrW 1, tx := [txW] }

/-- Witness environment: a chain indexed by hash length, an empty UTXO
snapshot, and a coinbase-only block. -/
def envW : Env :=
  { getblockhash := hashAtW
    getblockheader := fun s => chainHdrW s.length
    getblock := fun _ => blockW
    getrawtransaction := fun _ => txW
    get_utxo_set := fun _ => []
    get_timestamp_data := fun _ => { previous_timestamps := [], epoch_start_time := 0 }
    get_utreexo_data := fun h => "acc" ++ toString h }

theorem length_mk_replicate (n : Nat) (c : Char) :
    (String.mk (List.replicate n c)).length = n := by
  show (List.replicate n c).length = n
  simp

theorem envW_getblockheader (k : Nat) :
    envW.getblockheader (hashAtW k) = chainHdrW k :=
  congrArg chainHdrW (length_mk_replicate k 'h')

/-- Witness for C8 resolving a concrete outpoint against the witness
chain. -/
theorem resolve_outpoint_exact_witness :
    resolve_outpoint envW "aa" 0 = Except.ok
      { txid := "aa"
        vout := 0
        data := format_output { value := 50, scriptPubKey_hex := "51" }
        block_height := 2
        median_time_past := 101
        is_coinbase := true } :=
  resolve_outpoint_exact envW hashAtW chainHdrW envW_getblockheader
    (fun _ => rfl) (fun _ _ => rfl) "aa" 0 2 (by decide) rfl
    { value := 50, scriptPubKey_hex := "51" } rfl
    { coinbase := some "ab", txid := none, vout := none,
      scriptSig_hex := "", sequence := 0, txinwitness := [] } rfl rfl

theorem resolve_input_some_nil (env : Env) (input : RawInput) :
    resolve_input env (some []) input = resolve_input env none input := by
  unfold resolve_input
  cases hcb : truthyStr input.coinbase
  · cases hx : input.txid <;> cases hv : input.vout <;> simp [hcb, hx, hv]
  · simp [hcb]

theorem mapM_loop_except_congr {α β : Type} {f g : α → Except String β}
    (h : ∀ a, f a = g a) (l : List α) (acc : List β) :
    List.mapM.loop f l acc = List.mapM.loop g l acc := by
  induction l generalizing acc with
  | nil => rfl
  | cons a rest ih =>
    simp only [List.mapM.loop]
    rw [h a]
    cases g a with
    | error e => rfl
    | ok b => exact ih (b :: acc)

theorem mapM_except_congr {α β : Type} {f g : α → Except String β}
    (h : ∀ a, f a = g a) (l : List α) : l.mapM f = l.mapM g :=
  mapM_loop_except_congr h l []

theorem resolve_transaction_some_nil (env : Env) (tx : RawTx) :
    resolve_transaction env (some []) tx = resolve_transaction env none tx := by
  unfold resolve_transaction
  rw [mapM_except_congr (resolve_input_some_nil env) tx.vin]

theorem fetch_aux_congr (env : Env) (l : List RawTx) :
    l.mapM (fun tx => do
      let r ← resolve_transaction env (some []) tx
      Except.ok (tx.txid, r))
    = l.mapM (fun tx => do
      let r ← resolve_transaction env none tx
      Except.ok (tx.txid, r)) :=
  mapM_except_congr (fun tx => by rw [resolve_transaction_some_nil]) l

/-- C10: the fast/exact branching is decided by the truthiness of the
snapshot mapping, not the fast flag.  With an empty pre-fetched UTXO
snapshot, fetching a block in fast mode resolves every input through the
exact path, producing the same result as exact mode; only a nonempty
snapshot turns a missing outpoint key into a fatal KeyError. -/
theorem fetch_block_truthiness (env : Env) :
    (∀ block_hash : String,
      env.get_utxo_set (env.getblock block_hash).hdr.height = [] →
      fetch_block env block_hash true = fetch_block env block_hash false)
    ∧ (∀ (l : List ((String × Nat) × UtxoEntry)) (input : RawInput)
        (t : String) (v : Nat),
        l ≠ [] → truthyStr input.coinbase = false →
        input.txid = some t → input.vout = some v →
        alookup (t, v) l = none →
        resolve_input env (some l) input = Except.error "KeyError") := by
  constructor
  · intro bh hset
    simp only [fetch_block]
    rw [if_pos trivial, if_neg (by decide), hset]
    simp only [List.map_nil]
    rw [fetch_aux_congr env (env.getblock bh).tx]
  · intro l input t v hl hcb htx hvv hlk
    unfold resolve_input
    cases l with
    | nil => exact absurd rfl hl
    | cons e rest =>
      simp [hcb, htx, hvv, hlk]
      rfl

/-- Witness for C10: on the witness environment (whose UTXO snapshot is
empty) fast and exact block fetches agree, and a nonempty snapshot with a
missing key raises KeyError. -/
theorem fetch_block_truthiness_witness :
    (envW.get_utxo_set (envW.getblock (hashAtW 1)).hdr.height = []
      ∧ fetch_block envW (hashAtW 1) true = fetch_block envW (hashAtW 1) false)
    ∧ (resolve_input envW
        (some [(("zz", 0), (default : UtxoEntry))])
        { coinbase := none, txid := some "aa", vout := some 1,
          scriptSig_hex := "51", sequence := 0, txinwitness := [] }
        = Except.error "KeyError") :=
  ⟨⟨rfl, (fetch_block_truthiness envW).1 (hashAtW 1) rfl⟩,
    (fetch_block_truthiness envW).2 [(("zz", 0), default)]
      { coinbase := none, txid := some "aa", vout := some 1,
        scriptSig_hex := "51", sequence := 0, txinwitness := [] }
      "aa" 1 (by decide) rfl rfl rfl (by decide)⟩

/-- Embeds get_epoch_start_time: the time of the header at the start of the
current 2016-block epoch. -/
def get_epoch_start_time (env : Env) (block_height : Nat) : Nat :=
  let epoch_start_block_height := (block_height / 2016) * 2016
  (env.getblockheader (env.getblockhash epoch_start_block_height)).time

/-- Embeds the backfill loop of fetch_chain_state: walk up to a fixed
number of ancestor headers, stopping at height 0, inserting each ancestor
time at the front of the accumulator. -/
def backfill_loop (env : Env) : Nat → HeaderFields → List Nat → List Nat
  | 0, _, acc => acc
  | n + 1, prev_header, acc =>
    if prev_header.height = 0 then acc
    else
      let ph := env.getblockheader prev_header.previousblockhash
      backfill_loop env n ph (ph.time :: acc)

/-- Embeds fetch_chain_state: the header at the requested height, its
prev_timestamps backfilled by walking up to 10 ancestors (own time last),
and the epoch start time (the fixed genesis epoch time below height
2016). -/
def fetch_chain_state (env : Env) (block_height : Nat) : ChainState :=
  let head := env.getblockheader (env.getblockhash block_height)
  { hdr := head
    prev_timestamps := backfill_loop env 10 head [head.time]
    epoch_start_time :=
      if block_height < 2016 then 1231006505
      else get_epoch_start_time env block_height }

/-- Embeds fetch_chain_state_fast: prev_timestamps and epoch start come
from the timestamp-backfill provider. -/
def fetch_chain_state_fast (env : Env) (block_height : Nat) : ChainState :=
  let head := env.getblockheader (env.getblockhash block_height)
  { hdr := head
    prev_timestamps := (env.get_timestamp_data block_height).previous_timestamps
    epoch_start_time :=
      if block_height < 2016 then 1231006505
      else (env.get_timestamp_data block_height).epoch_start_time }

theorem backfill_loop_length (env : Env) (hashAt : Nat → String)
    (chainHdr : Nat → HeaderFields)
    (hlook : ∀ k, env.getblockheader (hashAt k) = chainHdr k)
    (hheight : ∀ k, (chainHdr k).height = k)
    (hprev : ∀ k, 1 ≤ k → (chainHdr k).previousblockhash = hashAt (k - 1)) :
    ∀ (fuel k : Nat) (acc : List Nat),
      (backfill_loop env fuel (chainHdr k) acc).length = min k fuel + acc.length := by
  intro fuel
  induction fuel with
  | zero => intro k acc; simp [backfill_loop]
  | succ n ih =>
    intro k acc
    unfold backfill_loop
    rw [hheight k]
    by_cases hk : k = 0
    · rw [if_pos hk]
      omega
    · rw [if_neg hk, hprev k (by omega), hlook, ih (k - 1)]
      simp only [List.length_cons]
      omega

/-- C5: the prev_timestamps window always holds min(height + 1, 11)
entries: the initial chain state built by walking up to 10 ancestor headers
satisfies the invariant, and the chain-state transition preserves it when a
block of the next height is applied. -/
theorem prev_timestamps_invariant (env : Env) (hashAt : Nat → String)
    (chainHdr : Nat → HeaderFields)
    (hlook : ∀ k, env.getblockheader (hashAt k) = chainHdr k)
    (hgbh : ∀ k, env.getblockhash k = hashAt k)
    (hheight : ∀ k, (chainHdr k).height = k)
    (hprev : ∀ k, 1 ≤ k → (chainHdr k).previousblockhash = hashAt (k - 1)) :
    (∀ H : Nat,
      (fetch_chain_state env H).prev_timestamps.length
        = min ((fetch_chain_state env H).hdr.height + 1) 11)
    ∧ (∀ (s : ChainState) (b : HeaderFields),
        s.prev_timestamps.length = min (s.hdr.height + 1) 11 →
        b.height = s.hdr.height + 1 →
        (next_chain_state s b).prev_timestamps.length
          = min ((next_chain_state s b).hdr.height + 1) 11) := by
  constructor
  · intro H
    show (backfill_loop env 10 (env.getblockheader (env.getblockhash H))
        [(env.getblockheader (env.getblockhash H)).time]).length
      = min ((env.getblockheader (env.getblockhash H)).height + 1) 11
    rw [hgbh, hlook,
      backfill_loop_length env hashAt chainHdr hlook hheight hprev 10 H,
      hheight]
    simp only [List.length_singleton]
    omega
  · intro s b hinv hb
    show (lastN 11 (s.prev_timestamps ++ [b.time])).length = min (b.height + 1) 11
    rw [lastN_length, List.length_append, List.length_singleton, hinv, hb]
    omega

/-- Witness for C5 on the witness chain at height 15, together with one
preservation step from height 15 to 16. -/
theorem prev_timestamps_invariant_witness :
    ((fetch_chain_state envW 15).prev_timestamps.length
      = min ((fetch_chain_state envW 15).hdr.height + 1) 11)
    ∧ ((next_chain_state
          { hdr := chainHdrW 15,
            prev_timestamps := [1, 2, 3, 4, 5, 6, 7, 8, 9, 10, 11],
            epoch_start_time := 0 }
          (chainHdrW 16)).prev_timestamps.length
        = min ((next_chain_state
            { hdr := chainHdrW 15,
              prev_timestamps := [1, 2, 3, 4, 5, 6, 7, 8, 9, 10, 11],
              epoch_start_time := 0 }
            (chainHdrW 16)).hdr.height + 1) 11) :=
  ⟨(prev_timestamps_invariant envW hashAtW chainHdrW envW_getblockheader
      (fun _ => rfl) (fun _ => rfl) (fun _ _ => rfl)).1 15,
   (prev_timestamps_invariant envW hashAtW chainHdrW envW_getblockheader
      (fun _ => rfl) (fun _ => rfl) (fun _ _ => rfl)).2
      { hdr := chainHdrW 15,
        prev_timestamps := [1, 2, 3, 4, 5, 6, 7, 8, 9, 10, 11],
        epoch_start_time := 0 }
      (chainHdrW 16) (by decide) (by decide)⟩

/-- Marks a formatted output as consumed within the block (cached). -/
def setCachedTrue (o : FmtOutput) : FmtOutput :=
  { o with cached := true }

/-- Marks a formatted input as spending an output created within the same
block: sets previous_output.data.cached. -/
def markInputCached (i : FmtInput) : FmtInput :=
  { i with previous_output :=
      { i.previous_output with data := setCachedTrue i.previous_output.data } }

/-- Outpoint key of an input: the (txid, vout) pair of its resolved
previous output. -/
def inKey (i : FmtInput) : String × Nat :=
  (i.previous_output.txid, i.previous_output.vout)

/-- The temporary per-block UTXO mapping, keyed by (txid, output index). -/
abbrev TmpUtxo : Type :=
  List ((String × Nat) × FmtOutput)

/-- Membership test of the temporary mapping (Python in-operator). -/
def hasKey (k : String × Nat) (tmp : TmpUtxo) : Bool :=
  (alookup k tmp).isSome

/-- Setting the cached flag of the entry stored under a key (Python
tmp_utxo_set[outpoint]["cached"] = True).  The stored Python dict value is
the same object as the owning transaction's output record; the second pass
below propagates the flag back to that record, so value semantics here
yields the same final block. -/
def tmpMark (k : String × Nat) (tmp : TmpUtxo) : TmpUtxo :=
  tmp.map (fun e => if e.1 = k then (e.1, setCachedTrue e.2) else e)

/-- Python dict item assignment: replace the entry if the key is present,
append it otherwise. -/
def dictInsert (tmp : TmpUtxo) (k : String × Nat) (v : FmtOutput) : TmpUtxo :=
  if hasKey k tmp then tmp.map (fun e => if e.1 = k then (k, v) else e)
  else tmp ++ [(k, v)]

/-- First pass, inner input loop: walk the inputs of one transaction in
order; an input whose outpoint key is already present was created by an
earlier transaction of this block, so mark both the input and the stored
temporary entry. -/
def passInputs : List FmtInput → TmpUtxo → List FmtInput × TmpUtxo
  | [], tmp => ([], tmp)
  | i :: rest, tmp =>
    if hasKey (inKey i) tmp then
      let r := passInputs rest (tmpMark (inKey i) tmp)
      (markInputCached i :: r.1, r.2)
    else
      let r := passInputs rest tmp
      (i :: r.1, r.2)

/-- First pass, output loop: add every output of the transaction to the
temporary mapping under (txid, enumeration index). -/
def addOutputs (txid : String) : Nat → List FmtOutput → TmpUtxo → TmpUtxo
  | _, [], tmp => tmp
  | idx, o :: rest, tmp => addOutputs txid (idx + 1) rest (dictInsert tmp (txid, idx) o)

/-- First pass over the transactions of a block, in order: process the
inputs of each transaction against the temporary mapping, then register its
outputs. -/
def pass1 : List (String × FmtTx) → TmpUtxo → List (String × FmtTx) × TmpUtxo
  | [], tmp => ([], tmp)
  | (txid, tx) :: rest, tmp =>
    let pi := passInputs tx.inputs tmp
    let tmp2 := addOutputs txid 0 tx.outputs pi.2
    let pr := pass1 rest tmp2
    ((txid, { tx with inputs := pi.1 }) :: pr.1, pr.2)

/-- Second pass, output loop: re-walk the outputs of one transaction and
propagate the cached flag from the temporary mapping onto the stored output
records. -/
def markOutputs (txid : String) (tmp : TmpUtxo) : Nat → List FmtOutput → List FmtOutput
  | _, [] => []
  | idx, o :: rest =>
    (match alookup (txid, idx) tmp with
     | some e => if e.cached then { o with cached := true } else o
     | none => o) :: markOutputs txid tmp (idx + 1) rest

/-- Second pass over the transactions of a block. -/
def pass2 (tmp : TmpUtxo) (txs : List (String × FmtTx)) : List (String × FmtTx) :=
  txs.map (fun p => (p.1, { p.2 with outputs := markOutputs p.1 tmp 0 p.2.outputs }))

/-- The intra-batch cache pass of generate_data over the resolved
transactions of one block: the temporary mapping starts empty for each
block, pass 1 marks inputs (and temporary entries) spending outputs created
earlier in the same block, pass 2 propagates the flags onto the stored
output records. -/
def cacheBlockPass (txs : List (String × FmtTx)) : List (String × FmtTx) :=
  let p := pass1 txs []
  pass2 p.2 p.1

theorem tmpMark_cons (k : String × Nat) (e : (String × Nat) × FmtOutput)
    (rest : TmpUtxo) :
    tmpMark k (e :: rest)
      = (if e.1 = k then (e.1, setCachedTrue e.2) else e) :: tmpMark k rest := rfl

theorem alookup_tmpMark (k k' : String × Nat) (tmp : TmpUtxo) :
    alookup k' (tmpMark k tmp)
      = if k' = k then (alookup k tmp).map setCachedTrue else alookup k' tmp := by
  induction tmp with
  | nil => simp [tmpMark, alookup]
  | cons e rest ih =>
    rw [tmpMark_cons]
    by_cases h1 : e.1 = k
    · by_cases h2 : k' = e.1
      · have hkk : k' = k := by rw [h2, h1]
        simp [alookup, h1, h2.symm, hkk]
      · have hkk : ¬k' = k := fun hh => h2 (by rw [hh, ← h1])
        have he2 : ¬e.1 = k' := fun hh => h2 hh.symm
        have hk3 : ¬k = k' := fun hh => hkk hh.symm
        simp [alookup, h1, he2, hk3, hkk, ih]
    · by_cases h2 : k' = e.1
      · have hkk : ¬k' = k := fun hh => h1 (by rw [← h2, hh])
        simp [alookup, h1, h2.symm, hkk]
      · have he2 : ¬e.1 = k' := fun hh => h2 hh.symm
        simp [alookup, h1, he2, ih]

theorem hasKey_tmpMark (k k' : String × Nat) (tmp : TmpUtxo) :
    hasKey k' (tmpMark k tmp) = hasKey k' tmp := by
  unfold hasKey
  rw [alookup_tmpMark]
  by_cases h : k' = k
  · subst h
    cases alookup k' tmp <;> simp
  · rw [if_neg h]

theorem alookup_tmpMark_self {k : String × Nat} {tmp : TmpUtxo} {o : FmtOutput}
    (h : alookup k tmp = some o) :
    alookup k (tmpMark k tmp) = some (setCachedTrue o) := by
  rw [alookup_tmpMark, if_pos rfl, h]
  rfl

theorem alookup_tmpMark_ne {k k' : String × Nat} (tmp : TmpUtxo) (h : k' ≠ k) :
    alookup k' (tmpMark k tmp) = alookup k' tmp := by
  rw [alookup_tmpMark, if_neg h]

theorem alookup_append_cases (k : String × Nat) (l1 l2 : TmpUtxo) :
    alookup k (l1 ++ l2)
      = match alookup k l1 with
        | some v => some v
        | none => alookup k l2 := by
  induction l1 with
  | nil => simp [alookup]
  | cons e rest ih =>
    by_cases h : e.1 = k <;> simp [alookup, h, ih]

theorem alookup_replace_self (tmp : TmpUtxo) (k : String × Nat) (v : FmtOutput)
    (h : hasKey k tmp = true) :
    alookup k (tmp.map (fun e => if e.1 = k then (k, v) else e)) = some v := by
  induction tmp with
  | nil => simp [hasKey, alookup] at h
  | cons e rest ih =>
    by_cases h1 : e.1 = k
    · simp [List.map_cons, h1, alookup]
    · have h' : hasKey k rest = true := by
        simpa [hasKey, alookup, h1] using h
      simp [List.map_cons, h1, alookup, ih h']

theorem alookup_replace_ne (tmp : TmpUtxo) (k k' : String × Nat) (v : FmtOutput)
    (h : k' ≠ k) :
    alookup k' (tmp.map (fun e => if e.1 = k then (k, v) else e))
      = alookup k' tmp := by
  induction tmp with
  | nil => rfl
  | cons e rest ih =>
    by_cases h1 : e.1 = k
    · have he : ¬(k = k') := fun hh => h hh.symm
      simp [List.map_cons, h1, alookup, he, ih, h1 ▸ he]
    · simp [List.map_cons, h1, alookup, ih]

theorem alookup_dictInsert_self (tmp : TmpUtxo) (k : String × Nat) (v : FmtOutput) :
    alookup k (dictInsert tmp k v) = some v := by
  unfold dictInsert
  by_cases hk : hasKey k tmp
  · rw [if_pos hk]
    exact alookup_replace_self tmp k v hk
  · rw [if_neg hk, alookup_append_cases]
    have hnone : alookup k tmp = none := by
      unfold hasKey at hk
      cases h : alookup k tmp
      · rfl
      · rw [h] at hk
        simp at hk
    rw [hnone]
    simp [alookup]

theorem alookup_dictInsert_ne (tmp : TmpUtxo) (k k' : String × Nat)
    (v : FmtOutput) (h : k' ≠ k) :
    alookup k' (dictInsert tmp k v) = alookup k' tmp := by
  unfold dictInsert
  by_cases hk : hasKey k tmp
  · rw [if_pos hk]
    exact alookup_replace_ne tmp k k' v h
  · rw [if_neg hk, alookup_append_cases]
    cases halk : alookup k' tmp
    · simp [alookup]
      exact fun hh => h hh.symm
    · rfl

theorem hasKey_dictInsert_mono (tmp : TmpUtxo) (k k' : String × Nat)
    (v : FmtOutput) (h : hasKey k' tmp = true) :
    hasKey k' (dictInsert tmp k v) = true := by
  by_cases he : k' = k
  · subst he
    unfold hasKey
    rw [alookup_dictInsert_self]
    rfl
  · unfold hasKey at h ⊢
    rw [alookup_dictInsert_ne tmp k k' v he]
    exact h

theorem alookup_addOutputs_lt (txid : String) (outs : List FmtOutput) :
    ∀ (idx : Nat) (tmp : TmpUtxo) (k : String × Nat), k.2 < idx →
      alookup k (addOutputs txid idx outs tmp) = alookup k tmp := by
  induction outs with
  | nil => intro idx tmp k h; rfl
  | cons o rest ih =>
    intro idx tmp k h
    show alookup k (addOutputs txid (idx + 1) rest (dictInsert tmp (txid, idx) o))
      = alookup k tmp
    rw [ih (idx + 1) _ k (by omega), alookup_dictInsert_ne]
    intro he
    rw [he] at h
    exact Nat.lt_irrefl idx h

theorem alookup_addOutputs_ne_txid (txid : String) (outs : List FmtOutput) :
    ∀ (idx : Nat) (tmp : TmpUtxo) (k : String × Nat), k.1 ≠ txid →
      alookup k (addOutputs txid idx outs tmp) = alookup k tmp := by
  induction outs with
  | nil => intro idx tmp k h; rfl
  | cons o rest ih =>
    intro idx tmp k h
    show alookup k (addOutputs txid (idx + 1) rest (dictInsert tmp (txid, idx) o))
      = alookup k tmp
    rw [ih (idx + 1) _ k h, alookup_dictInsert_ne]
    intro he
    rw [he] at h
    exact h rfl

theorem alookup_addOutputs_self (txid : String) (outs : List FmtOutput) :
    ∀ (idx : Nat) (tmp : TmpUtxo) (j : Nat) (hj : j < outs.length),
      alookup (txid, idx + j) (addOutputs txid idx outs tmp)
        = some (outs.get ⟨j, hj⟩) := by
  induction outs with
  | nil => intro idx tmp j hj; simp at hj
  | cons o rest ih =>
    intro idx tmp j hj
    cases j with
    | zero =>
      show alookup (txid, idx + 0)
          (addOutputs txid (idx + 1) rest (dictInsert tmp (txid, idx) o))
        = some o
      rw [alookup_addOutputs_lt txid rest (idx + 1) _ (txid, idx + 0) (by simp)]
      simpa using alookup_dictInsert_self tmp (txid, idx) o
    | succ n =>
      have hn : n < rest.length := by
        simp only [List.length_cons] at hj
        omega
      show alookup (txid, idx + (n + 1))
          (addOutputs txid (idx + 1) rest (dictInsert tmp (txid, idx) o))
        = some (rest.get ⟨n, hn⟩)
      rw [show idx + (n + 1) = (idx + 1) + n by omega,
        ih (idx + 1) _ n hn]

theorem hasKey_addOutputs_mono (txid : String) (outs : List FmtOutput) :
    ∀ (idx : Nat) (tmp : TmpUtxo) (k : String × Nat), hasKey k tmp = true →
      hasKey k (addOutputs txid idx outs tmp) = true := by
  induction outs with
  | nil => intro idx tmp k h; exact h
  | cons o rest ih =>
    intro idx tmp k h
    exact ih (idx + 1) _ k (hasKey_dictInsert_mono tmp (txid, idx) k o h)

theorem hasKey_addOutputs_false (txid : String) (outs : List FmtOutput) :
    ∀ (idx : Nat) (tmp : TmpUtxo) (k : String × Nat), hasKey k tmp = false →
      ¬(k.1 = txid ∧ k.2 < idx + outs.length) →
      hasKey k (addOutputs txid idx outs tmp) = false := by
  induction outs with
  | nil => intro idx tmp k h _; exact h
  | cons o rest ih =>
    intro idx tmp k h hno
    have hne : k ≠ (txid, idx) := by
      intro he
      exact hno ⟨by rw [he], by rw [he]; simp⟩
    have h1 : hasKey k (dictInsert tmp (txid, idx) o) = false := by
      unfold hasKey
      rw [alookup_dictInsert_ne tmp (txid, idx) k o hne]
      exact h
    exact ih (idx + 1) _ k h1
      (fun ⟨ha, hb⟩ => hno ⟨ha, by simp only [List.length_cons]; omega⟩)

theorem passInputs_cons_pos {i : FmtInput} {rest : List FmtInput} {tmp : TmpUtxo}
    (h : hasKey (inKey i) tmp = true) :
    passInputs (i :: rest) tmp
      = (markInputCached i :: (passInputs rest (tmpMark (inKey i) tmp)).1,
         (passInputs rest (tmpMark (inKey i) tmp)).2) := by
  simp [passInputs, h]

theorem passInputs_cons_neg {i : FmtInput} {rest : List FmtInput} {tmp : TmpUtxo}
    (h : hasKey (inKey i) tmp = false) :
    passInputs (i :: rest) tmp
      = (i :: (passInputs rest tmp).1, (passInputs rest tmp).2) := by
  simp [passInputs, h]

theorem hasKey_passInputs (ins : List FmtInput) :
    ∀ (tmp : TmpUtxo) (k : String × Nat),
      hasKey k (passInputs ins tmp).2 = hasKey k tmp := by
  induction ins with
  | nil => intro tmp k; rfl
  | cons i rest ih =>
    intro tmp k
    cases h : hasKey (inKey i) tmp
    · rw [passInputs_cons_neg h]
      exact ih tmp k
    · rw [passInputs_cons_pos h, ih _ k, hasKey_tmpMark]

theorem alookup_passInputs_cached (ins : List FmtInput) :
    ∀ (tmp : TmpUtxo) (k : String × Nat) (o : FmtOutput),
      alookup k tmp = some o → o.cached = true →
      ∃ o', alookup k (passInputs ins tmp).2 = some o' ∧ o'.cached = true := by
  induction ins with
  | nil => intro tmp k o h hc; exact ⟨o, h, hc⟩
  | cons i rest ih =>
    intro tmp k o h hc
    cases hk : hasKey (inKey i) tmp
    · rw [passInputs_cons_neg hk]
      exact ih tmp k o h hc
    · rw [passInputs_cons_pos hk]
      by_cases he : k = inKey i
      · subst he
        exact ih _ (inKey i) (setCachedTrue o) (alookup_tmpMark_self h) rfl
      · exact ih _ k o (by rw [alookup_tmpMark_ne _ he]; exact h) hc

theorem passInputs_marks_tmp (ins : List FmtInput) :
    ∀ (tmp : TmpUtxo) (n : Nat) (i : FmtInput), ins[n]? = some i →
      hasKey (inKey i) tmp = true →
      ∃ o', alookup (inKey i) (passInputs ins tmp).2 = some o'
        ∧ o'.cached = true := by
  induction ins with
  | nil => intro tmp n i h _; simp at h
  | cons j rest ih =>
    intro tmp n i h hk
    cases n with
    | zero =>
      have hji : j = i := by simpa using h
      subst hji
      rw [passInputs_cons_pos hk]
      obtain ⟨o, ho⟩ : ∃ o, alookup (inKey j) tmp = some o := by
        unfold hasKey at hk
        cases hh : alookup (inKey j) tmp
        · rw [hh] at hk
          simp at hk
        · exact ⟨_, rfl⟩
      exact alookup_passInputs_cached rest _ (inKey j) (setCachedTrue o)
        (alookup_tmpMark_self ho) rfl
    | succ n' =>
      have h' : rest[n']? = some i := by simpa using h
      cases hkj : hasKey (inKey j) tmp
      · rw [passInputs_cons_neg hkj]
        exact ih tmp n' i h' hk
      · rw [passInputs_cons_pos hkj]
        exact ih _ n' i h' (by rw [hasKey_tmpMark]; exact hk)

theorem passInputs_get_marked (ins : List FmtInput) :
    ∀ (tmp : TmpUtxo) (n : Nat) (i : FmtInput), ins[n]? = some i →
      hasKey (inKey i) tmp = true →
      (passInputs ins tmp).1[n]? = some (markInputCached i) := by
  induction ins with
  | nil => intro tmp n i h _; simp at h
  | cons j rest ih =>
    intro tmp n i h hk
    cases n with
    | zero =>
      have hji : j = i := by simpa using h
      subst hji
      rw [passInputs_cons_pos hk]
      simp
    | succ n' =>
      have h' : rest[n']? = some i := by simpa using h
      cases hkj : hasKey (inKey j) tmp
      · rw [passInputs_cons_neg hkj]
        simpa using ih tmp n' i h' hk
      · rw [passInputs_cons_pos hkj]
        simpa using ih _ n' i h' (by rw [hasKey_tmpMark]; exact hk)

theorem passInputs_get_unmarked (ins : List FmtInput) :
    ∀ (tmp : TmpUtxo) (n : Nat) (i : FmtInput), ins[n]? = some i →
      hasKey (inKey i) tmp = false →
      (passInputs ins tmp).1[n]? = some i := by
  induction ins with
  | nil => intro tmp n i h _; simp at h
  | cons j rest ih =>
    intro tmp n i h hk
    cases n with
    | zero =>
      have hji : j = i := by simpa using h
      subst hji
      rw [passInputs_cons_neg hk]
      simp
    | succ n' =>
      have h' : rest[n']? = some i := by simpa using h
      cases hkj : hasKey (inKey j) tmp
      · rw [passInputs_cons_neg hkj]
        simpa using ih tmp n' i h' hk
      · rw [passInputs_cons_pos hkj]
        simpa using ih _ n' i h' (by rw [hasKey_tmpMark]; exact hk)

theorem pass1_cons (txid : String) (tx : FmtTx) (rest : List (String × FmtTx))
    (tmp : TmpUtxo) :
    pass1 ((txid, tx) :: rest) tmp
      = ((txid, { tx with inputs := (passInputs tx.inputs tmp).1 })
          :: (pass1 rest
              (addOutputs txid 0 tx.outputs (passInputs tx.inputs tmp).2)).1,
         (pass1 rest
            (addOutputs txid 0 tx.outputs (passInputs tx.inputs tmp).2)).2) := rfl

theorem pass1_length (txs : List (String × FmtTx)) :
    ∀ tmp : TmpUtxo, (pass1 txs tmp).1.length = txs.length := by
  induction txs with
  | nil => intro tmp; rfl
  | cons p rest ih =>
    intro tmp
    obtain ⟨txid, tx⟩ := p
    rw [pass1_cons]
    simp [ih]

theorem pass1_get_shape (txs : List (String × FmtTx)) :
    ∀ (tmp : TmpUtxo) (n : Nat) (t : String) (tx : FmtTx),
      txs[n]? = some (t, tx) →
      ∃ ins', (pass1 txs tmp).1[n]? = some (t, { tx with inputs := ins' }) := by
  induction txs with
  | nil => intro tmp n t tx h; simp at h
  | cons p rest ih =>
    intro tmp n t tx h
    obtain ⟨txid, tx0⟩ := p
    cases n with
    | zero =>
      have he : (txid, tx0) = (t, tx) := by simpa using h
      injection he with h1 h2
      subst h1
      subst h2
      rw [pass1_cons]
      exact ⟨(passInputs tx0.inputs tmp).1, by simp⟩
    | succ n' =>
      have h' : rest[n']? = some (t, tx) := by simpa using h
      rw [pass1_cons]
      simpa using ih _ n' t tx h'

theorem hasKey_pass1_mono (txs : List (String × FmtTx)) :
    ∀ (tmp : TmpUtxo) (k : String × Nat), hasKey k tmp = true →
      hasKey k (pass1 txs tmp).2 = true := by
  induction txs with
  | nil => intro tmp k h; exact h
  | cons p rest ih =>
    intro tmp k h
    obtain ⟨txid, tx⟩ := p
    rw [pass1_cons]
    exact ih _ k (hasKey_addOutputs_mono txid tx.outputs 0 _ k
      (by rw [hasKey_passInputs]; exact h))

theorem hasKey_pass1_false (txs : List (String × FmtTx)) :
    ∀ (tmp : TmpUtxo) (k : String × Nat), hasKey k tmp = false →
      (∀ p ∈ txs, ¬(p.1 = k.1 ∧ k.2 < p.2.outputs.length)) →
      hasKey k (pass1 txs tmp).2 = false := by
  induction txs with
  | nil => intro tmp k h _; exact h
  | cons p rest ih =>
    intro tmp k h hno
    obtain ⟨txid, tx⟩ := p
    rw [pass1_cons]
    apply ih
    · apply hasKey_addOutputs_false
      · rw [hasKey_passInputs]
        exact h
      · intro ⟨ha, hb⟩
        exact hno (txid, tx) (List.mem_cons_self _ _)
          ⟨ha.symm, by simpa using hb⟩
    · intro p hp
      exact hno p (List.mem_cons_of_mem _ hp)

theorem hasKey_pass1_creator (txs : List (String × FmtTx)) :
    ∀ (tmp : TmpUtxo) (n : Nat) (t : String) (tx : FmtTx),
      txs[n]? = some (t, tx) → ∀ v : Nat, v < tx.outputs.length →
      hasKey (t, v) (pass1 txs tmp).2 = true := by
  induction txs with
  | nil => intro tmp n t tx h; simp at h
  | cons p rest ih =>
    intro tmp n t tx h v hv
    obtain ⟨txid, tx0⟩ := p
    cases n with
    | zero =>
      have he : (txid, tx0) = (t, tx) := by simpa using h
      injection he with h1 h2
      subst h1
      subst h2
      rw [pass1_cons]
      apply hasKey_pass1_mono
      unfold hasKey
      have hself := alookup_addOutputs_self txid tx0.outputs 0
        (passInputs tx0.inputs tmp).2 v hv
      rw [Nat.zero_add] at hself
      rw [hself]
      rfl
    | succ n' =>
      have h' : rest[n']? = some (t, tx) := by simpa using h
      rw [pass1_cons]
      exact ih _ n' t tx h' v hv

theorem alookup_pass1_cached (txs : List (String × FmtTx)) :
    ∀ (tmp : TmpUtxo) (k : String × Nat) (o : FmtOutput),
      (∀ p ∈ txs, p.1 ≠ k.1) → alookup k tmp = some o → o.cached = true →
      ∃ o', alookup k (pass1 txs tmp).2 = some o' ∧ o'.cached = true := by
  induction txs with
  | nil => intro tmp k o _ h hc; exact ⟨o, h, hc⟩
  | cons p rest ih =>
    intro tmp k o hne h hc
    obtain ⟨txid, tx⟩ := p
    rw [pass1_cons]
    obtain ⟨o1, ho1, hc1⟩ := alookup_passInputs_cached tx.inputs tmp k o h hc
    have h2 : alookup k
        (addOutputs txid 0 tx.outputs (passInputs tx.inputs tmp).2) = some o1 := by
      rw [alookup_addOutputs_ne_txid txid tx.outputs 0 _ k
        (Ne.symm (hne (txid, tx) (List.mem_cons_self _ _)))]
      exact ho1
    exact ih _ k o1 (fun p hp => hne p (List.mem_cons_of_mem _ hp)) h2 hc1

theorem pass2_get (tmp : TmpUtxo) (txs : List (String × FmtTx)) (n : Nat) :
    (pass2 tmp txs)[n]?
      = (txs[n]?).map
          (fun p => (p.1, { p.2 with outputs := markOutputs p.1 tmp 0 p.2.outputs })) := by
  simp [pass2]

theorem markOutputs_cons (txid : String) (tmp : TmpUtxo) (idx : Nat)
    (o0 : FmtOutput) (rest : List FmtOutput) :
    markOutputs txid tmp idx (o0 :: rest)
      = (match alookup (txid, idx) tmp with
         | some e => if e.cached then { o0 with cached := true } else o0
         | none => o0) :: markOutputs txid tmp (idx + 1) rest := rfl

theorem markOutputs_get (txid : String) (tmp : TmpUtxo) (outs : List FmtOutput) :
    ∀ (idx n : Nat) (o : FmtOutput), outs[n]? = some o →
      (markOutputs txid tmp idx outs)[n]?
        = some (match alookup (txid, idx + n) tmp with
                | some e => if e.cached then { o with cached := true } else o
                | none => o) := by
  induction outs with
  | nil => intro idx n o h; simp at h
  | cons o0 rest ih =>
    intro idx n o h
    cases n with
    | zero =>
      have he : o0 = o := by simpa using h
      subst he
      rw [markOutputs_cons]
      simp
    | succ n' =>
      have h' : rest[n']? = some o := by simpa using h
      rw [markOutputs_cons, List.getElem?_cons_succ,
        ih (idx + 1) n' o h', show idx + 1 + n' = idx + (n' + 1) by omega]

theorem mem_take_getElem? {α : Type} {l : List α} {n : Nat} {p : α}
    (h : p ∈ l.take n) : ∃ m, m < n ∧ l[m]? = some p := by
  obtain ⟨m, hm⟩ := List.mem_iff_getElem?.1 h
  have hmn : m < n := by
    by_contra hge
    have hlen : (l.take n).length ≤ m := by
      rw [List.length_take]
      omega
    rw [List.getElem?_eq_none_iff.mpr hlen] at hm
    exact Option.noConfusion hm
  exact ⟨m, hmn, by rw [← List.getElem?_take_of_lt hmn]; exact hm⟩

theorem mem_drop_getElem? {α : Type} {l : List α} {n : Nat} {p : α}
    (h : p ∈ l.drop n) : ∃ m, l[n + m]? = some p := by
  obtain ⟨m, hm⟩ := List.mem_iff_getElem?.1 h
  exact ⟨m, by rw [← List.getElem?_drop]; exact hm⟩

theorem getElem?_some_lt {α : Type} {l : List α} {n : Nat} {p : α}
    (h : l[n]? = some p) : n < l.length := by
  by_contra hge
  rw [List.getElem?_eq_none_iff.mpr (by omega)] at h
  exact Option.noConfusion h

theorem nodup_fst_ne {txs : List (String × FmtTx)}
    (hnd : (txs.map Prod.fst).Nodup) {i j : Nat} (hij : i ≠ j)
    {p q : String × FmtTx} (hi : txs[i]? = some p) (hj : txs[j]? = some q) :
    p.1 ≠ q.1 := by
  intro he
  have hmi : (txs.map Prod.fst)[i]? = some p.1 := by
    rw [List.getElem?_map, hi]
    rfl
  have hmj : (txs.map Prod.fst)[j]? = some q.1 := by
    rw [List.getElem?_map, hj]
    rfl
  have hil : i < (txs.map Prod.fst).length := by
    simpa using getElem?_some_lt hi
  have hjl : j < (txs.map Prod.fst).length := by
    simpa using getElem?_some_lt hj
  rcases Nat.lt_or_ge i j with hlt | hge
  · exact (List.nodup_iff_getElem?_ne_getElem?.1 hnd i j hlt hjl)
      (by rw [hmi, hmj, he])
  · have hlt : j < i := by omega
    exact (List.nodup_iff_getElem?_ne_getElem?.1 hnd j i hlt hil)
      (by rw [hmi, hmj, he])

theorem pass1_append (xs ys : List (String × FmtTx)) :
    ∀ tmp : TmpUtxo,
      pass1 (xs ++ ys) tmp
        = ((pass1 xs tmp).1 ++ (pass1 ys (pass1 xs tmp).2).1,
           (pass1 ys (pass1 xs tmp).2).2) := by
  induction xs with
  | nil => intro tmp; rfl
  | cons p rest ih =>
    intro tmp
    obtain ⟨txid, tx⟩ := p
    rw [List.cons_append, pass1_cons, pass1_cons, ih]
    simp

theorem split_at_of_getElem? {α : Type} :
    ∀ (l : List α) (n : Nat) (x : α), l[n]? = some x →
      l = l.take n ++ x :: l.drop (n + 1) := by
  intro l
  induction l with
  | nil => intro n x h; simp at h
  | cons a rest ih =>
    intro n x h
    cases n with
    | zero =>
      have ha : a = x := by simpa using h
      subst ha
      simp
    | succ m =>
      have h2 : rest[m]? = some x := by simpa using h
      simp only [List.take_succ_cons, List.drop_succ_cons, List.cons_append]
      rw [← ih m x h2]

theorem txs_split_at {txs : List (String × FmtTx)} {n : Nat} {t : String}
    {tx : FmtTx} (h : txs[n]? = some (t, tx)) :
    txs = txs.take n ++ (t, tx) :: txs.drop (n + 1) :=
  split_at_of_getElem? txs n (t, tx) h

theorem pass1_get_decomp (txs : List (String × FmtTx)) {n : Nat} {t : String}
    {tx : FmtTx} (h : txs[n]? = some (t, tx)) :
    (pass1 txs []).1[n]?
      = some (t, { tx with
          inputs := (passInputs tx.inputs (pass1 (txs.take n) []).2).1 }) := by
  have hlen1 : (pass1 (txs.take n) []).1.length = n := by
    rw [pass1_length, List.length_take]
    have := getElem?_some_lt h
    omega
  conv_lhs => rw [txs_split_at h]
  rw [pass1_append, pass1_cons, List.getElem?_append_right (le_of_eq hlen1),
    hlen1]
  simp

theorem pass1_tmp_decomp (txs : List (String × FmtTx)) {n : Nat} {t : String}
    {tx : FmtTx} (h : txs[n]? = some (t, tx)) :
    (pass1 txs []).2
      = (pass1 (txs.drop (n + 1))
          (addOutputs t 0 tx.outputs
            (passInputs tx.inputs (pass1 (txs.take n) []).2).2)).2 := by
  conv_lhs => rw [txs_split_at h]
  rw [pass1_append, pass1_cons]

/-- C1: in the per-block cache pass, when transaction A creates output
(A, 0) and a later transaction B of the same block spends it, the
previous_output of the spending input of B and the stored output record of
A at index 0 both end up with cached set to true; and an input whose
outpoint key was not created by any earlier transaction of the block is
left unchanged by the pass. -/
theorem cacheBlockPass_spec
    (txs : List (String × FmtTx)) (i j k : Nat) (ta tb : String)
    (A B : FmtTx) (inB : FmtInput)
    (hnd : (txs.map Prod.fst).Nodup)
    (hij : i < j)
    (hA : txs[i]? = some (ta, A))
    (hB : txs[j]? = some (tb, B))
    (hk : B.inputs[k]? = some inB)
    (hkeyIn : inKey inB = (ta, 0))
    (hA0 : 0 < A.outputs.length) :
    (∃ tx', (cacheBlockPass txs)[j]? = some (tb, tx')
      ∧ ∃ inB', tx'.inputs[k]? = some inB'
        ∧ inB'.previous_output.data.cached = true)
    ∧ (∃ tx', (cacheBlockPass txs)[i]? = some (ta, tx')
      ∧ ∃ o', tx'.outputs[0]? = some o' ∧ o'.cached = true)
    ∧ (∀ (j' k' : Nat) (t' : String) (tx' : FmtTx) (inp' : FmtInput),
        txs[j']? = some (t', tx') → tx'.inputs[k']? = some inp' →
        (∀ i' : Nat, i' < j' → ∀ (t'' : String) (tx'' : FmtTx),
          txs[i']? = some (t'', tx'') →
          ¬(t'' = (inKey inp').1 ∧ (inKey inp').2 < tx''.outputs.length)) →
        ∃ tx2, (cacheBlockPass txs)[j']? = some (t', tx2)
          ∧ tx2.inputs[k']? = some inp') := by
  have hApre : (txs.take j)[i]? = some (ta, A) := by
    rw [List.getElem?_take_of_lt hij]
    exact hA
  have hkey0 : hasKey (ta, 0) (pass1 (txs.take j) []).2 = true :=
    hasKey_pass1_creator (txs.take j) [] i ta A hApre 0 hA0
  have hkeyB : hasKey (inKey inB) (pass1 (txs.take j) []).2 = true := by
    rw [hkeyIn]
    exact hkey0
  refine ⟨?_, ?_, ?_⟩
  · refine ⟨{ B with
        inputs := (passInputs B.inputs (pass1 (txs.take j) []).2).1,
        outputs := markOutputs tb (pass1 txs []).2 0 B.outputs }, ?_, ?_⟩
    · show (pass2 (pass1 txs []).2 (pass1 txs []).1)[j]? = _
      rw [pass2_get, pass1_get_decomp txs hB]
      rfl
    · refine ⟨markInputCached inB, ?_, rfl⟩
      show (passInputs B.inputs (pass1 (txs.take j) []).2).1[k]?
        = some (markInputCached inB)
      exact passInputs_get_marked B.inputs _ k inB hk hkeyB
  · have hta_tb : ta ≠ tb := by
      have h0 := nodup_fst_ne hnd (Nat.ne_of_lt hij) hA hB
      simpa using h0
    have h0 := passInputs_marks_tmp B.inputs (pass1 (txs.take j) []).2 k inB hk hkeyB
    rw [hkeyIn] at h0
    obtain ⟨o1, ho1, hc1⟩ := h0
    have h2 : alookup (ta, 0)
        (addOutputs tb 0 B.outputs
          (passInputs B.inputs (pass1 (txs.take j) []).2).2) = some o1 := by
      rw [alookup_addOutputs_ne_txid tb B.outputs 0 _ (ta, 0)
        (by simpa using hta_tb)]
      exact ho1
    have hrest_ne : ∀ p ∈ txs.drop (j + 1), p.1 ≠ (ta, (0 : Nat)).1 := by
      intro p hp
      obtain ⟨m, hm⟩ := mem_drop_getElem? hp
      have hne := nodup_fst_ne hnd (show j + 1 + m ≠ i by omega) hm hA
      simpa using hne
    obtain ⟨o2, ho2, hc2⟩ :=
      alookup_pass1_cached (txs.drop (j + 1)) _ (ta, 0) o1 hrest_ne h2 hc1
    have hofinal : alookup (ta, 0) (pass1 txs []).2 = some o2 := by
      rw [pass1_tmp_decomp txs hB]
      exact ho2
    obtain ⟨o0, ho0⟩ : ∃ o0, A.outputs[0]? = some o0 := by
      cases h00 : A.outputs[0]?
      · rw [List.getElem?_eq_none_iff] at h00
        omega
      · exact ⟨_, rfl⟩
    refine ⟨{ A with
        inputs := (passInputs A.inputs (pass1 (txs.take i) []).2).1,
        outputs := markOutputs ta (pass1 txs []).2 0 A.outputs }, ?_, ?_⟩
    · show (pass2 (pass1 txs []).2 (pass1 txs []).1)[i]? = _
      rw [pass2_get, pass1_get_decomp txs hA]
      rfl
    · refine ⟨{ o0 with cached := true }, ?_, rfl⟩
      show (markOutputs ta (pass1 txs []).2 0 A.outputs)[0]?
        = some { o0 with cached := true }
      rw [markOutputs_get ta _ A.outputs 0 0 o0 ho0]
      simp [hofinal, hc2]
  · intro j' k' t' tx' inp' hj' hk' hno
    have hnokey : hasKey (inKey inp') (pass1 (txs.take j') []).2 = false := by
      apply hasKey_pass1_false
      · rfl
      · intro p hp hcon
        obtain ⟨m, hmlt, hm⟩ := mem_take_getElem? hp
        exact hno m hmlt p.1 p.2 hm hcon
    refine ⟨{ tx' with
        inputs := (passInputs tx'.inputs (pass1 (txs.take j') []).2).1,
        outputs := markOutputs t' (pass1 txs []).2 0 tx'.outputs }, ?_, ?_⟩
    · show (pass2 (pass1 txs []).2 (pass1 txs []).1)[j']? = _
      rw [pass2_get, pass1_get_decomp txs hj']
      rfl
    · show (passInputs tx'.inputs (pass1 (txs.take j') []).2).1[k']? = some inp'
      exact passInputs_get_unmarked tx'.inputs _ k' inp' hk' hnokey

/-- Witness transaction A: creates one output at index 0. -/
def txAW : FmtTx :=
  { version := 1, is_segwit := false, inputs := [],
    outputs := [{ value := 7, pk_script := "0x51", cached := false }],
    lock_time := 0 }

/-- Witness input of B spending output 0 of A. -/
def inBW : FmtInput :=
  { script := "0x", sequence := 0,
    previous_output :=
      { txid := "a", vout := 0,
        data := { value := 7, pk_script := "0x51", cached := false },
        block_height := 1, median_time_past := 5, is_coinbase := false },
    witness := [] }

/-- Witness transaction B: spends output (A, 0). -/
def txBW : FmtTx :=
  { version := 1, is_segwit := false, inputs := [inBW], outputs := [],
    lock_time := 0 }

/-- Witness for C1 on a concrete two-transaction block. -/
theorem cacheBlockPass_spec_witness :
    (((cacheBlockPass [("a", txAW), ("b", txBW)])[1]?).bind
        (fun p => p.2.inputs[0]?)).map
      (fun inp => inp.previous_output.data.cached) = some true
    ∧ (((cacheBlockPass [("a", txAW), ("b", txBW)])[0]?).bind
        (fun p => p.2.outputs[0]?)).map (fun o => o.cached) = some true := by
  obtain ⟨hc1, hc2, _⟩ :=
    cacheBlockPass_spec [("a", txAW), ("b", txBW)] 0 1 0 "a" "b"
      txAW txBW inBW (by decide) (by decide) rfl rfl rfl rfl (by decide)
  obtain ⟨tx1, h1, in1, h2, h3⟩ := hc1
  obtain ⟨tx2, h4, o1, h5, h6⟩ := hc2
  constructor
  · rw [h1]
    simp [h2, h3]
  · rw [h4]
    simp [h5, h6]

/-- A fetched block: light mode keeps only the header, full and utreexo
modes carry the resolved transactions. -/
inductive FetchedBlock where
  | light (h : HeaderFields)
  | full (b : ResolvedBlock)
deriving DecidableEq, Repr, Inhabited

/-- Header fields of a fetched block (the dict fields Python reads off the
block regardless of its shape). -/
def FetchedBlock.hdrFields : FetchedBlock → HeaderFields
  | .light h => h
  | .full b => b.hdr

/-- Formatted header (Cairo type). -/
structure FmtHeader where
  version : Int
  time : Nat
  bits : Nat
  nonce : Nat
deriving DecidableEq, Repr, Inhabited

/-- Embeds format_header. -/
def format_header (header : HeaderFields) : FmtHeader :=
  { version := header.version, time := header.time, bits := header.bits,
    nonce := header.nonce }

/-- Block payload variants: variant id 0 carries the merkle root, variant
id 1 the full transaction list. -/
inductive FmtBlockData where
  | lightData (merkle_root : String)
  | fullData (transactions : List FmtTx)
deriving DecidableEq, Repr, Inhabited

/-- Variant id emitted in the fixture. -/
def FmtBlockData.variant_id : FmtBlockData → Nat
  | .lightData _ => 0
  | .fullData _ => 1

/-- Formatted block (Cairo type). -/
structure FmtBlock where
  header : FmtHeader
  data : FmtBlockData
deriving DecidableEq, Repr, Inhabited

/-- Embeds format_block (light variant, id 0). -/
def format_block (header : HeaderFields) : FmtBlock :=
  { header := format_header header, data := .lightData header.merkleroot }

/-- Embeds format_block_with_transactions (full variant, id 1, transactions
in insertion order). -/
def format_block_with_transactions (block : ResolvedBlock) : FmtBlock :=
  { header := format_header block.hdr,
    data := .fullData (block.data.map Prod.snd) }

/-- Formatted chain state.  The script renders total_work and
current_target through str; they are kept as decimal strings. -/
structure FmtChainState where
  block_height : Nat
  total_work : String
  best_block_hash : String
  current_target : String
  epoch_start_time : Nat
  prev_timestamps : List Nat
deriving DecidableEq, Repr, Inhabited

/-- Embeds format_chain_state. -/
def format_chain_state (head : ChainState) : FmtChainState :=
  { block_height := head.hdr.height
    total_work := toString head.hdr.chainwork
    best_block_hash := head.hdr.hash
    current_target := toString (bits_to_target head.hdr.bits)
    epoch_start_time := head.epoch_start_time
    prev_timestamps := head.prev_timestamps }

/-- Embeds fetch_block_header. -/
def fetch_block_header (env : Env) (block_hash : String) : HeaderFields :=
  env.getblockheader block_hash

/-- The generated fixture document. -/
structure GenResult where
  chain_state : FmtChainState
  blocks : List FmtBlock
  expected : FmtChainState
  utreexo : Option String
deriving DecidableEq, Repr, Inhabited

/-- The cache pass applied to the resolved transactions of one block. -/
def applyCachePass (b : ResolvedBlock) : ResolvedBlock :=
  { b with data := cacheBlockPass b.data }

/-- The block formatter: Python picks it by mode, which coincides with the
shape of the fetched blocks. -/
def formatFetched : FetchedBlock → FmtBlock
  | .light h => format_block h
  | .full b => format_block_with_transactions b

/-- One iteration body of the fetch loop of generate_data: fetch a header
in light mode, a full block (with the cache pass applied by the caller) in
full and utreexo modes, and raise NotImplementedError otherwise. -/
def fetch_mode_block (env : Env) (mode : String) (fast : Bool)
    (next_block_hash : String) : Except String FetchedBlock :=
  if mode = "light" then
    Except.ok (FetchedBlock.light (fetch_block_header env next_block_hash))
  else if mode = "full" ∨ mode = "utreexo" then do
    let rb ← fetch_block env next_block_hash fast
    Except.ok (FetchedBlock.full (applyCachePass rb))
  else Except.error ("NotImplementedError: " ++ mode)

/-- The fetch-and-fold loop of generate_data: fetch each block by the
running nextblockhash, append it and fold the chain state forward. -/
def generate_loop (env : Env) (mode : String) (fast : Bool) :
    Nat → String → List FetchedBlock → ChainState →
    Except String (List FetchedBlock × ChainState)
  | 0, _, blocks, chain_state => Except.ok (blocks, chain_state)
  | n + 1, next_block_hash, blocks, chain_state => do
    let block ← fetch_mode_block env mode fast next_block_hash
    generate_loop env mode fast n block.hdrFields.nextblockhash
      (blocks ++ [block]) (next_chain_state chain_state block.hdrFields)

/-- The initial chain state of generate_data, fetched fast or exactly. -/
def initial_chain_state (env : Env) (fast : Bool) (initial_height : Nat) :
    ChainState :=
  if fast then fetch_chain_state_fast env initial_height
  else fetch_chain_state env initial_height

/-- Embeds generate_data: fetch the initial state, fold the requested
number of blocks, and assemble the fixture; utreexo mode asserts that
exactly one block was fetched and attaches the accumulator payload for
it. -/
def generate_data (env : Env) (mode : String)
    (initial_height num_blocks : Nat) (fast : Bool) :
    Except String GenResult := do
  let r ← generate_loop env mode fast num_blocks
      (initial_chain_state env fast initial_height).hdr.nextblockhash []
      (initial_chain_state env fast initial_height)
  let result : GenResult :=
    { chain_state :=
        format_chain_state (initial_chain_state env fast initial_height)
      blocks := r.1.map formatFetched
      expected := format_chain_state r.2
      utreexo := none }
  if mode = "utreexo" then
    match r.1 with
    | [b] =>
        Except.ok
          { result with utreexo := some (env.get_utreexo_data b.hdrFields.height) }
    | _ => Except.error "Cannot handle more than one block in Utreexo mode"
  else Except.ok result

/-- Success test of an Except value. -/
def isOkE {α : Type} : Except String α → Bool
  | Except.ok _ => true
  | Except.error _ => false

theorem except_bind_ok {α β : Type} {x : Except String α}
    {f : α → Except String β} {b : β} (h : (x >>= f) = Except.ok b) :
    ∃ a, x = Except.ok a ∧ f a = Except.ok b := by
  cases x with
  | error e => simp [Bind.bind, Except.bind] at h
  | ok a => exact ⟨a, rfl, h⟩

theorem generate_loop_length (env : Env) (mode : String) (fast : Bool) :
    ∀ (n : Nat) (h : String) (acc : List FetchedBlock) (cs : ChainState)
      (blocks : List FetchedBlock) (cs2 : ChainState),
      generate_loop env mode fast n h acc cs = Except.ok (blocks, cs2) →
      blocks.length = acc.length + n := by
  intro n
  induction n with
  | zero =>
    intro h acc cs blocks cs2 hrun
    have he := Except.ok.inj hrun
    injection he with h1 h2
    rw [← h1]
    omega
  | succ n ih =>
    intro h acc cs blocks cs2 hrun
    simp only [generate_loop] at hrun
    obtain ⟨block, hblock, hrest⟩ := except_bind_ok hrun
    have hlen := ih block.hdrFields.nextblockhash (acc ++ [block])
      (next_chain_state cs block.hdrFields) blocks cs2 hrest
    rw [hlen, List.length_append]
    simp
    omega

theorem fetch_mode_block_utreexo (env : Env) (fast : Bool) (h : String) :
    fetch_mode_block env "utreexo" fast h
      = (do
          let rb ← fetch_block env h fast
          Except.ok (FetchedBlock.full (applyCachePass rb))) := by
  unfold fetch_mode_block
  rw [if_neg (by decide), if_pos (by decide)]

theorem fetch_block_hdr (env : Env) (h : String) (fast : Bool)
    (rb : ResolvedBlock) (hfb : fetch_block env h fast = Except.ok rb) :
    rb.hdr = (env.getblock h).hdr := by
  simp only [fetch_block] at hfb
  obtain ⟨d, hm, hres⟩ := except_bind_ok hfb
  rw [← Except.ok.inj hres]

/-- C9: in utreexo mode an invocation covering two or more blocks fails
(the single-block mode contract is asserted) and returns no fixture, while
a successful single-block invocation carries the externally supplied
accumulator payload for that block. -/
theorem generate_data_utreexo (env : Env) (initial_height : Nat) (fast : Bool) :
    (∀ num_blocks : Nat, 2 ≤ num_blocks →
      isOkE (generate_data env "utreexo" initial_height num_blocks fast) = false)
    ∧ (isOkE (generate_data env "utreexo" initial_height 1 fast) = true →
        Except.map GenResult.utreexo
            (generate_data env "utreexo" initial_height 1 fast)
          = Except.ok (some (env.get_utreexo_data
              ((env.getblock
                ((initial_chain_state env fast initial_height).hdr.nextblockhash)).hdr.height)))) := by
  constructor
  · intro n hn
    simp only [generate_data]
    cases hrun : generate_loop env "utreexo" fast n
        (initial_chain_state env fast initial_height).hdr.nextblockhash []
        (initial_chain_state env fast initial_height) with
    | error e => rfl
    | ok r =>
      obtain ⟨blocks, cs2⟩ := r
      have hlen := generate_loop_length env "utreexo" fast n _ _ _ blocks cs2 hrun
      cases blocks with
      | nil =>
        simp at hlen
        omega
      | cons b1 rest =>
        cases rest with
        | nil =>
          simp at hlen
          omega
        | cons b2 bs => rfl
  · intro hok
    cases hrun : generate_loop env "utreexo" fast 1
        (initial_chain_state env fast initial_height).hdr.nextblockhash []
        (initial_chain_state env fast initial_height) with
    | error e =>
      have hfalse :
          isOkE (generate_data env "utreexo" initial_height 1 fast) = false := by
        simp only [generate_data]
        rw [hrun]
        rfl
      rw [hfalse] at hok
      exact Bool.noConfusion hok
    | ok r =>
      obtain ⟨blocks, cs2⟩ := r
      cases blocks with
      | nil =>
        have hfalse :
            isOkE (generate_data env "utreexo" initial_height 1 fast) = false := by
          simp only [generate_data]
          rw [hrun]
          rfl
        rw [hfalse] at hok
        exact Bool.noConfusion hok
      | cons b rest =>
        cases rest with
        | cons b2 bs =>
          have hfalse :
              isOkE (generate_data env "utreexo" initial_height 1 fast) = false := by
            simp only [generate_data]
            rw [hrun]
            rfl
          rw [hfalse] at hok
          exact Bool.noConfusion hok
        | nil =>
          have hrun0 := hrun
          simp only [generate_loop, fetch_mode_block_utreexo] at hrun
          obtain ⟨block, hblock, hout⟩ := except_bind_ok hrun
          obtain ⟨rb, hfb, hmk⟩ := except_bind_ok hblock
          have hb : block = FetchedBlock.full (applyCachePass rb) :=
            (Except.ok.inj hmk).symm
          have he := Except.ok.inj hout
          injection he with e1 e2
          have hbb : block = b := by
            have e1' : [block] = [b] := by simpa using e1
            injection e1'
          have hgd : generate_data env "utreexo" initial_height 1 fast
              = Except.ok
                  { chain_state :=
                      format_chain_state (initial_chain_state env fast initial_height)
                    blocks := [b].map formatFetched
                    expected := format_chain_state cs2
                    utreexo := some (env.get_utreexo_data b.hdrFields.height) } := by
            simp only [generate_data]
            rw [hrun0]
            rfl
          rw [hgd, ← hbb, hb,
            show (FetchedBlock.full (applyCachePass rb)).hdrFields = rb.hdr from rfl,
            fetch_block_hdr env _ fast rb hfb]
          rfl

/-- Witness for C9: on the witness environment a two-block utreexo run
fails and a one-block run succeeds carrying the accumulator payload of the
fetched block. -/
theorem generate_data_utreexo_witness :
    isOkE (generate_data envW "utreexo" 0 2 false) = false
    ∧ (isOkE (generate_data envW "utreexo" 0 1 false) = true
      ∧ Except.map GenResult.utreexo (generate_data envW "utreexo" 0 1 false)
        = Except.ok (some (envW.get_utreexo_data
            ((envW.getblock
              ((initial_chain_state envW false 0).hdr.nextblockhash)).hdr.height)))) :=
  ⟨(generate_data_utreexo envW 0 false).1 2 (by decide),
   ⟨by decide, (generate_data_utreexo envW 0 false).2 (by decide)⟩⟩
